import Mathlib

/-!
Shallow embedding of the `irbis-ukr-scrape` pipeline.

The repository harvests Ukrainian-literature records from the Vernadsky
library (OAI-PMH, SRU, and two HTML scrapers), normalises them into rows
`{title, author, year_written, year_published}`, computes a derived
identity key `work_key = unidecode(author).lower().strip() + "|" +
unidecode(title).lower().strip()`, merges new rows into a master CSV /
SQLite store with `pd.concat` + `drop_duplicates("work_key")` +
`sort_values`, and persists the four data columns (dropping `work_key`).

Strings are modelled as `List Char`.  The third-party `unidecode`
transliteration table is modelled for ASCII (identity) and the Ukrainian
Cyrillic alphabet; characters outside the modelled table transliterate to
the empty string, matching `unidecode`'s behaviour for unmapped code
points.  Theorems that quantify over strings restrict them to the
modelled alphabet via `strOk`.
-/

namespace IrbisUkr

/-- Strings of the Python program are modelled as lists of characters. -/
abbrev Str := List Char

/-- View a Lean string literal as a `Str`. -/
def chars (s : String) : Str := s.toList

/-- Characters stripped by Python `str.strip()` with no argument,
restricted to the ASCII whitespace characters
(space, tab, newline, carriage return, vertical tab, form feed). -/
def isPySpace (c : Char) : Bool :=
  c == ' ' || c == '\t' || c == '\n' || c == '\r' ||
    c == Char.ofNat 11 || c == Char.ofNat 12

/-- Fragment of the `unidecode` transliteration table for the Ukrainian
Cyrillic alphabet.  Each entry is
(uppercase letter, lowercase letter, transliteration of the lowercase letter);
the uppercase letter transliterates to the capitalised form, as in the
`unidecode` data tables.  The soft sign transliterates to an ASCII
apostrophe (character 39). -/
def cyrTable : List (Char × Char × Str) := [
  ('А', 'а', ['a']), ('Б', 'б', ['b']), ('В', 'в', ['v']),
  ('Г', 'г', ['g']), ('Ґ', 'ґ', ['g']), ('Д', 'д', ['d']),
  ('Е', 'е', ['e']), ('Є', 'є', ['i', 'e']), ('Ж', 'ж', ['z', 'h']),
  ('З', 'з', ['z']), ('И', 'и', ['i']), ('І', 'і', ['i']),
  ('Ї', 'ї', ['y', 'i']), ('Й', 'й', ['i']), ('К', 'к', ['k']),
  ('Л', 'л', ['l']), ('М', 'м', ['m']), ('Н', 'н', ['n']),
  ('О', 'о', ['o']), ('П', 'п', ['p']), ('Р', 'р', ['r']),
  ('С', 'с', ['s']), ('Т', 'т', ['t']), ('У', 'у', ['u']),
  ('Ф', 'ф', ['f']), ('Х', 'х', ['k', 'h']), ('Ц', 'ц', ['t', 's']),
  ('Ч', 'ч', ['c', 'h']), ('Ш', 'ш', ['s', 'h']),
  ('Щ', 'щ', ['s', 'h', 'c', 'h']), ('Ь', 'ь', [Char.ofNat 39]),
  ('Ю', 'ю', ['i', 'u']), ('Я', 'я', ['i', 'a'])]

/-- Uppercase an ASCII lowercase letter (used to capitalise
transliterations of uppercase Cyrillic letters). -/
def asciiToUpper (c : Char) : Char :=
  if 97 ≤ c.toNat ∧ c.toNat ≤ 122 then Char.ofNat (c.toNat - 32) else c

/-- Capitalise the first character of an ASCII string. -/
def capitalizeAscii : Str → Str
  | [] => []
  | c :: t => asciiToUpper c :: t

/-- Python `str.lower()` on a single character, modelled for ASCII and the
Ukrainian Cyrillic alphabet (identity elsewhere). -/
def pyLower (c : Char) : Char :=
  if 65 ≤ c.toNat ∧ c.toNat ≤ 90 then Char.ofNat (c.toNat + 32)
  else
    match cyrTable.find? (fun e => e.1 == c) with
    | some e => e.2.1
    | none => c

/-- `unidecode` on a single character: ASCII characters map to themselves,
modelled Cyrillic letters map through `cyrTable`, anything else maps to
the empty string (as `unidecode` does for unmapped code points). -/
def unidecodeChar (c : Char) : Str :=
  if c.toNat < 128 then [c]
  else
    match cyrTable.find? (fun e => e.1 == c) with
    | some e => capitalizeAscii e.2.2
    | none =>
      match cyrTable.find? (fun e => e.2.1 == c) with
      | some e => e.2.2
      | none => []

/-- `unidecode` on a string. -/
def unidecodeStr : Str → Str
  | [] => []
  | c :: t => unidecodeChar c ++ unidecodeStr t

/-- Python `str.lower()` on a string. -/
def lowerStr (s : Str) : Str := s.map pyLower

/-- Python `str.lstrip()`. -/
def stripLeft (s : Str) : Str := s.dropWhile isPySpace

/-- Python `str.rstrip()`. -/
def stripRight (s : Str) : Str := (s.reverse.dropWhile isPySpace).reverse

/-- Python `str.strip()`. -/
def pyStrip (s : Str) : Str := stripRight (stripLeft s)

/-- One half of the identity key: `unidecode(x).lower().strip()`. -/
def normField (s : Str) : Str := pyStrip (lowerStr (unidecodeStr s))

/-- The identity key.  Models `key` in `nbuv_oai.py` lines 34–35 and
`normal_key` in `nbuv_sru.py` lines 125–126 / `nbuv_scrape_html.py`
lines 63–66:
`f"{unidecode(author).lower().strip()}|{unidecode(title).lower().strip()}"`. -/
def key (author title : Str) : Str := normField author ++ '|' :: normField title

/-- Python `str.lstrip(cs)` with an explicit character set. -/
def lstripSet (cs : Str) (s : Str) : Str := s.dropWhile (fun c => cs.contains c)

/-- Python `str.rstrip(cs)` with an explicit character set. -/
def rstripSet (cs : Str) (s : Str) : Str :=
  (s.reverse.dropWhile (fun c => cs.contains c)).reverse

/-- Python `str.strip(cs)` with an explicit character set. -/
def stripSet (cs : Str) (s : Str) : Str := rstripSet cs (lstripSet cs s)

/-- The characters covered by the embedding: all of ASCII plus the
Ukrainian Cyrillic alphabet of `cyrTable`. -/
def modeledChars : Str :=
  (List.range 128).map Char.ofNat ++ cyrTable.map (fun e => e.1) ++
    cyrTable.map (fun e => e.2.1)

/-- A string lies in the modelled alphabet. -/
def strOk (s : Str) : Prop := ∀ c ∈ s, c ∈ modeledChars

instance (s : Str) : Decidable (strOk s) :=
  inferInstanceAs (Decidable (∀ c ∈ s, c ∈ modeledChars))

set_option maxRecDepth 40000 in
/-- On the modelled alphabet, transliterating and then lowercasing agrees
with lowercasing first: `pyLower` and `unidecodeChar` commute up to
`lowerStr`. -/
theorem lowerStr_unidecodeChar_pyLower :
    ∀ c ∈ modeledChars,
      lowerStr (unidecodeChar c) = lowerStr (unidecodeChar (pyLower c)) := by
  decide

/-- A persisted master-store row: exactly the four data columns written to
the CSV and to the SQLite table `combined`. -/
structure Row where
  title : Str
  author : Str
  year_written : Option Int
  year_published : Option Int
deriving DecidableEq

/-- An in-memory row of the merge pipeline: the four data columns plus the
derived `work_key` column. -/
structure KRow where
  title : Str
  author : Str
  year_written : Option Int
  year_published : Option Int
  work_key : Str
deriving DecidableEq

/-- `df.drop(columns="work_key")` on one row. -/
def toRow (r : KRow) : Row :=
  ⟨r.title, r.author, r.year_written, r.year_published⟩

/-- `save` / `save_master`: persist the frame after dropping `work_key`
(nbuv_oai.py 93–97, nbuv_sru.py 158–162, nbuv_scrape_html.py 184–190,
nbuv_irbis_scrape.py 203–207).  The CSV and the SQLite table receive the
same projection, so one persisted list models both stores. -/
def save (df : List KRow) : List Row := df.map toRow

/-- `load_master`: read the persisted rows and recompute `work_key` from
the persisted author and title (nbuv_oai.py 86–91, nbuv_sru.py 150–155,
nbuv_scrape_html.py 172–181, nbuv_irbis_scrape.py 191–201). -/
def load_master (persisted : List Row) : List KRow :=
  persisted.map fun r =>
    ⟨r.title, r.author, r.year_written, r.year_published, key r.author r.title⟩

/-- Strict ascending comparison on an optional year with nulls last
(pandas `na_position="last"`). -/
def ltOpt : Option Int → Option Int → Bool
  | some x, some y => x < y
  | some _, none => true
  | none, _ => false

/-- Nonstrict ascending comparison on an optional year with nulls last. -/
def leOpt : Option Int → Option Int → Bool
  | some x, some y => x ≤ y
  | some _, none => true
  | none, some _ => false
  | none, none => true

/-- The sort key of `sort_values(["year_written", "year_published"],
na_position="last")`: lexicographic on the two year columns, nulls last. -/
def rowLeB (r s : KRow) : Bool :=
  ltOpt r.year_written s.year_written ||
    (r.year_written == s.year_written &&
      leOpt r.year_published s.year_published)

/-- `rowLeB` as a relation. -/
def rowLe (r s : KRow) : Prop := rowLeB r s = true

instance : DecidableRel rowLe :=
  fun r s => inferInstanceAs (Decidable (rowLeB r s = true))

/-- The sort key of `sort_values("year_published")` in
nbuv_irbis_scrape.py line 219: the publication year only, nulls last. -/
def rowLeYP (r s : KRow) : Prop :=
  leOpt r.year_published s.year_published = true

instance : DecidableRel rowLeYP :=
  fun r s =>
    inferInstanceAs (Decidable (leOpt r.year_published s.year_published = true))

/-- `drop_duplicates("work_key", keep="first")`, with the set of keys seen
so far made explicit. -/
def dedupBy (seen : List Str) : List KRow → List KRow
  | [] => []
  | r :: rs =>
    if r.work_key ∈ seen then dedupBy seen rs
    else r :: dedupBy (r.work_key :: seen) rs

/-- `drop_duplicates("work_key", keep="first")`. -/
def dedupByKey (l : List KRow) : List KRow := dedupBy [] l

/-- Merge pipeline of nbuv_oai.py 107–112 and nbuv_scrape_html.py 204–209:
concatenate, drop duplicate keys keeping the first occurrence, then sort
by `(year_written, year_published)` with nulls last.  A pandas
multi-column `sort_values` is a stable lexicographic sort (numpy
`lexsort`), which is modelled by `insertionSort`. -/
def mergeOai (master new : List KRow) : List KRow :=
  List.insertionSort rowLe (dedupByKey (master ++ new))

/-- Merge pipeline of nbuv_sru.py 175–180: concatenate, sort by
`(year_written, year_published)` with nulls last, and only then drop
duplicate keys keeping the first occurrence. -/
def mergeSru (master new : List KRow) : List KRow :=
  dedupByKey (List.insertionSort rowLe (master ++ new))

/-- Merge pipeline of nbuv_irbis_scrape.py 216–221: concatenate, drop
duplicate keys keeping the first occurrence, then sort by
`year_published` only.  The counterexamples below use rows with distinct
sort keys, on which every sort implementation agrees, so modelling the
single-column sort as a stable sort loses nothing. -/
def mergeIrbis (master new : List KRow) : List KRow :=
  List.insertionSort rowLeYP (dedupByKey (master ++ new))

/-- A pandas cell as consumed by `_s` in nbuv_irbis_scrape.py 53–59,
restricted to the cases the claims concern: missing (`None`), a float
NaN, or a string. -/
inductive Cell
  | none
  | nan
  | str (s : Str)
deriving DecidableEq

namespace NbuvIrbis

/-- `_s` of nbuv_irbis_scrape.py 53–59: `None` and NaN become the empty
string, a string is returned unchanged. -/
def sClean : Cell → Str
  | Cell.none => []
  | Cell.nan => []
  | Cell.str s => s

/-- `key` of nbuv_irbis_scrape.py 61–65: the shared identity-key formula
applied after `_s`. -/
def key (author title : Cell) : Str :=
  IrbisUkr.key (sClean author) (sClean title)

end NbuvIrbis

/-- ASCII digit test (Python regex `\d` over the modelled alphabet). -/
def isDigitCh (c : Char) : Bool := 48 ≤ c.toNat && c.toNat ≤ 57

/-- Numeric value of an ASCII digit character. -/
def digitVal (c : Char) : Nat := c.toNat - 48

/-- First match of the SRU year pattern `(\d{4})` of nbuv_sru.py line 90:
the leftmost occurrence of four consecutive digits, as an integer. -/
def firstFourDigit : Str → Option Nat
  | a :: b :: c :: d :: rest =>
    if isDigitCh a && isDigitCh b && isDigitCh c && isDigitCh d then
      some (digitVal a * 1000 + digitVal b * 100 + digitVal c * 10 + digitVal d)
    else firstFourDigit (b :: c :: d :: rest)
  | _ => none

/-- Python regex word character (`\w`) over the modelled alphabet: ASCII
letters, digits, underscore, and the modelled Cyrillic letters. -/
def isWordChar (c : Char) : Bool :=
  isDigitCh c || (65 ≤ c.toNat && c.toNat ≤ 90) ||
    (97 ≤ c.toNat && c.toNat ≤ 122) || c == '_' ||
    cyrTable.any (fun e => e.1 == c || e.2.1 == c)

/-- The year alternation of nbuv_oai.py line 30
(`17\d{2}|18\d{2}|19\d{2}|20[0-2]\d`) and of nbuv_scrape_html.py line 55
(`1[789]\d{2}|20[0-2]\d|1700`): both denote exactly the four-digit
numbers 1700–1999 and 2000–2029. -/
def yearAlt (a b c d : Char) : Option Nat :=
  if isDigitCh a && isDigitCh b && isDigitCh c && isDigitCh d then
    let n := digitVal a * 1000 + digitVal b * 100 + digitVal c * 10 + digitVal d
    if (1700 ≤ n && n ≤ 1999) || (2000 ≤ n && n ≤ 2029) then some n else none
  else none

/-- `YEAR_RE.search` for the `\b`-delimited year alternation: the leftmost
match.  `prev` is the character immediately before the current position
(`none` at the start of the string); since the match starts and ends with
digits, the boundaries hold exactly when the neighbouring characters are
absent or non-word. -/
def yearSearch (prev : Option Char) : Str → Option Nat
  | a :: b :: c :: d :: rest =>
    match yearAlt a b c d with
    | some n =>
      if (prev.all fun p => !isWordChar p) &&
          (rest.head?.all fun q => !isWordChar q) then some n
      else yearSearch (some a) (b :: c :: d :: rest)
    | none => yearSearch (some a) (b :: c :: d :: rest)
  | _ => none

/-- The trailing strip set `" /.:;"` of nbuv_oai.py line 43. -/
def oaiStripChars : Str := [' ', '/', '.', ':', ';']

/-- The strip set `" /:;"` of nbuv_sru.py lines 118–119 (no dot). -/
def sruStripChars : Str := [' ', '/', ':', ';']

/-- Genre keywords of nbuv_oai.py line 58; the first word contains the
ASCII apostrophe (character 39), exactly as in the source. -/
def genreWords : List Str :=
  [['п', Char.ofNat 39, 'є', 'с'], chars "драма", chars "комедія",
    chars "трагедія", chars "есе"]

/-- Python substring containment `needle in hay`. -/
def containsSub (needle : Str) : Str → Bool
  | [] => needle.isEmpty
  | c :: t => needle.isPrefixOf (c :: t) || containsSub needle t

/-- Genre filter of nbuv_oai.py lines 56–58: drop a record when the
lowered title contains a drama / essay keyword. -/
def genreReject (title : Str) : Bool :=
  genreWords.any fun w => containsSub w (lowerStr title)

/-- Input to `nbuv_oai.parse_marcxml`: the pymarc accessor results.
`none` models a missing value (`rec.title()` returning `None`, or field
`260$c` being absent). -/
structure OaiRec where
  title? : Option Str
  author? : Option Str
  pubyear? : Option Str
  f260c? : Option Str

namespace NbuvOai

/-- `parse_marcxml` of nbuv_oai.py lines 37–67: strip the title's trailing
`" /.:;"`, reject empty title or author, extract the first bounded year
of `pubyear + " " + 260$c`, reject years outside 1700–2024, apply the
genre filter, and build the row (with `year_written` null and the
computed `work_key`). -/
def parse_marcxml (r : OaiRec) : Option KRow :=
  if rstripSet oaiStripChars (r.title?.getD []) = [] ∨
      r.author?.getD [] = [] then Option.none
  else
    match yearSearch Option.none
        (r.pubyear?.getD [] ++ [' '] ++ r.f260c?.getD []) with
    | Option.none => Option.none
    | some year =>
      if 1700 ≤ year ∧ year ≤ 2024 then
        if genreReject (rstripSet oaiStripChars (r.title?.getD [])) then
          Option.none
        else
          some ⟨rstripSet oaiStripChars (r.title?.getD []),
            r.author?.getD [], Option.none, some (year : Int),
            key (r.author?.getD [])
              (rstripSet oaiStripChars (r.title?.getD []))⟩
      else Option.none

end NbuvOai

/-- Input to `nbuv_sru.parse_marcxml`: the `f(tag, code)` accessor
results, with the empty string standing for a missing field or
subfield. -/
structure SruRec where
  f245a : Str
  f100a : Str
  f700a : Str
  f260c : Str
  f264c : Str

namespace NbuvSru

/-- `parse_marcxml` of nbuv_sru.py lines 93–122.  The emptiness checks use
Python truthiness (`if not title`) on the *unstripped* accessor values;
`.strip(" /:;")` is applied only to the fields of the returned row. -/
def parse_marcxml (r : SruRec) : Option Row :=
  if r.f245a = [] then Option.none
  else
    let author := if r.f100a ≠ [] then r.f100a else r.f700a
    if author = [] then Option.none
    else
      let date_str := if r.f260c ≠ [] then r.f260c else r.f264c
      match firstFourDigit date_str with
      | Option.none => Option.none
      | some year =>
        some ⟨stripSet sruStripChars r.f245a, stripSet sruStripChars author,
          Option.none, some (year : Int)⟩

end NbuvSru

/-- Input to `nbuv_scrape_html.extract_record`: the extracted title and
author texts, the text of the block labelled `Дата:` when present, and
the full page text. -/
structure HtmlRec where
  title : Str
  author : Str
  dateText : Option Str
  pageText : Str

namespace NbuvHtml

/-- `extract_record` of nbuv_scrape_html.py lines 78–119: the year is
searched in the date-label text, then (if still absent) in the whole
page; an empty title raises (`none` here, the caller skips the record);
the function returns `(title, author or "", year or 0)`, so a missing
year becomes the literal `0`. -/
def extract_record (r : HtmlRec) : Option (Str × Str × Nat) :=
  let year : Option Nat :=
    match r.dateText with
    | some t => yearSearch Option.none t
    | Option.none => Option.none
  let year :=
    match year with
    | some y => some y
    | Option.none => yearSearch Option.none r.pageText
  if r.title = [] then Option.none
  else some (r.title, r.author, year.getD 0)

/-- The row appended by `collect_rows` for one record
(nbuv_scrape_html.py lines 143–159): the year returned by
`extract_record` is stored in `year_published` unchanged. -/
def collectRow (r : HtmlRec) : Option KRow :=
  (extract_record r).map fun p =>
    ⟨p.1, p.2.1, Option.none, some (p.2.2 : Int), key p.2.1 p.1⟩

end NbuvHtml

/-- One list-page hit as seen by `extract_hits`
(nbuv_irbis_scrape.py 81–121): the record-link text (title), the `<em>`
text (author, empty when absent), and the integer value of the dedicated
year `<span>` when one matches `^\d{4}$`. -/
structure IrbisHit where
  title : Str
  author : Str
  yearSpan : Option Nat

namespace NbuvIrbis

/-- The row appended for one hit (nbuv_irbis_scrape.py 101–118): an empty
link text is skipped, and `year if year else None` maps a year of `0` to
null before the row is built. -/
def hitRow (h : IrbisHit) : Option KRow :=
  if h.title = [] then Option.none
  else
    some ⟨h.title, h.author, Option.none,
      (match h.yearSpan with
       | some y => if y ≠ 0 then some (y : Int) else Option.none
       | Option.none => Option.none),
      IrbisUkr.key h.author h.title⟩

end NbuvIrbis

theorem leOpt_refl (a : Option Int) : leOpt a a = true := by
  cases a <;> simp [leOpt]

theorem leOpt_total (a b : Option Int) :
    leOpt a b = true ∨ leOpt b a = true := by
  cases a <;> cases b <;> first | omega | (simp [leOpt]; omega) | simp [leOpt]

theorem leOpt_trans {a b c : Option Int} (h1 : leOpt a b = true)
    (h2 : leOpt b c = true) : leOpt a c = true := by
  cases a <;> cases b <;> cases c <;> first | omega | (simp [leOpt] at *; omega) | simp [leOpt] at *

theorem ltOpt_trans {a b c : Option Int} (h1 : ltOpt a b = true)
    (h2 : ltOpt b c = true) : ltOpt a c = true := by
  cases a <;> cases b <;> cases c <;> first | omega | (simp [ltOpt] at *; omega) | simp [ltOpt] at *

theorem ltOpt_or (a b : Option Int) :
    ltOpt a b = true ∨ a = b ∨ ltOpt b a = true := by
  cases a <;> cases b <;> first | omega | (simp [ltOpt]; omega) | simp [ltOpt]

instance : IsTotal KRow rowLe := by
  constructor
  intro a b
  simp only [rowLe, rowLeB, Bool.or_eq_true, Bool.and_eq_true, beq_iff_eq]
  rcases ltOpt_or a.year_written b.year_written with h | h | h
  · exact Or.inl (Or.inl h)
  · rcases leOpt_total a.year_published b.year_published with h2 | h2
    · exact Or.inl (Or.inr ⟨h, h2⟩)
    · exact Or.inr (Or.inr ⟨h.symm, h2⟩)
  · exact Or.inr (Or.inl h)

instance : IsTrans KRow rowLe := by
  constructor
  intro a b c hab hbc
  simp only [rowLe, rowLeB, Bool.or_eq_true, Bool.and_eq_true,
    beq_iff_eq] at hab hbc ⊢
  rcases hab with h1 | ⟨h1, h2⟩ <;> rcases hbc with h3 | ⟨h3, h4⟩
  · exact Or.inl (ltOpt_trans h1 h3)
  · rw [← h3]; exact Or.inl h1
  · rw [h1]; exact Or.inl h3
  · exact Or.inr ⟨h1.trans h3, leOpt_trans h2 h4⟩

instance : IsTotal KRow rowLeYP := by
  constructor
  intro a b
  exact leOpt_total a.year_published b.year_published

instance : IsTrans KRow rowLeYP := by
  constructor
  intro a b c hab hbc
  exact leOpt_trans hab hbc

theorem mem_of_mem_dedupBy {seen : List Str} {l : List KRow} {r : KRow}
    (h : r ∈ dedupBy seen l) : r ∈ l := by
  induction l generalizing seen with
  | nil => simp [dedupBy] at h
  | cons a t ih =>
    simp only [dedupBy] at h
    split at h
    · exact List.mem_cons_of_mem _ (ih h)
    · rcases List.mem_cons.mp h with rfl | h
      · exact List.mem_cons_self _ _
      · exact List.mem_cons_of_mem _ (ih h)

theorem work_key_not_seen {seen : List Str} {l : List KRow} {r : KRow}
    (h : r ∈ dedupBy seen l) : r.work_key ∉ seen := by
  induction l generalizing seen with
  | nil => simp [dedupBy] at h
  | cons a t ih =>
    simp only [dedupBy] at h
    split at h
    · exact ih h
    · rcases List.mem_cons.mp h with rfl | h
      · assumption
      · intro hs
        exact ih h (List.mem_cons_of_mem _ hs)

theorem dedupBy_first {seen : List Str} {l₁ l₂ : List KRow} {r x : KRow}
    (h : r ∈ dedupBy seen (l₁ ++ l₂)) (hx : x ∈ l₁)
    (hk : x.work_key = r.work_key) : r ∈ l₁ := by
  induction l₁ generalizing seen with
  | nil => simp at hx
  | cons a t ih =>
    simp only [List.cons_append, dedupBy] at h
    split at h
    · rcases List.mem_cons.mp hx with h' | hx'
      · exfalso
        apply work_key_not_seen h
        rw [← hk, h']
        assumption
      · exact List.mem_cons_of_mem _ (ih h hx')
    · rcases List.mem_cons.mp h with h' | h'
      · rw [h']; exact List.mem_cons_self _ _
      · rcases List.mem_cons.mp hx with h'' | hx'
        · exfalso
          apply work_key_not_seen h'
          rw [← hk, h'']
          exact List.mem_cons_self _ _
        · exact List.mem_cons_of_mem _ (ih h' hx')

theorem dedupBy_pairwise (seen : List Str) (l : List KRow) :
    (dedupBy seen l).Pairwise (fun a b => a.work_key ≠ b.work_key) := by
  induction l generalizing seen with
  | nil => simp [dedupBy]
  | cons a t ih =>
    simp only [dedupBy]
    split
    · exact ih _
    · refine List.Pairwise.cons ?_ (ih _)
      intro b hb h
      apply work_key_not_seen hb
      rw [← h]
      exact List.mem_cons_self _ _

theorem dedupBy_eq_self {seen : List Str} {l : List KRow}
    (hp : l.Pairwise (fun a b => a.work_key ≠ b.work_key))
    (hs : ∀ r ∈ l, r.work_key ∉ seen) : dedupBy seen l = l := by
  induction l generalizing seen with
  | nil => rfl
  | cons a t ih =>
    have ha : a.work_key ∉ seen := hs a (List.mem_cons_self _ _)
    simp only [dedupBy, if_neg ha]
    congr 1
    refine ih (List.pairwise_cons.mp hp).2 ?_
    intro r hr hmem
    rcases List.mem_cons.mp hmem with h | h
    · exact (List.pairwise_cons.mp hp).1 r hr h.symm
    · exact hs r (List.mem_cons_of_mem _ hr) h

theorem dedupBy_sublist (seen : List Str) (l : List KRow) :
    (dedupBy seen l).Sublist l := by
  induction l generalizing seen with
  | nil => simp [dedupBy]
  | cons a t ih =>
    simp only [dedupBy]
    split
    · exact (ih _).cons _
    · exact (ih _).cons₂ _

theorem filter_orderedInsert {p : KRow → Bool} {r : KRow → KRow → Prop}
    [DecidableRel r] (hp : ∀ a b, p a = true → p b = true → r a b)
    (a : KRow) (l : List KRow) :
    (List.orderedInsert r a l).filter p =
      if p a then a :: l.filter p else l.filter p := by
  induction l with
  | nil => simp [List.filter_cons]
  | cons b t ih =>
    simp only [List.orderedInsert]
    by_cases hr : r a b
    · rw [if_pos hr, List.filter_cons]
    · rw [if_neg hr, List.filter_cons, ih, List.filter_cons]
      by_cases hpa : p a = true
      · have hpb : ¬p b = true := fun hb => hr (hp a b hpa hb)
        simp [hpa, hpb]
      · simp [hpa]

theorem filter_insertionSort {p : KRow → Bool} {r : KRow → KRow → Prop}
    [DecidableRel r] (hp : ∀ a b, p a = true → p b = true → r a b)
    (l : List KRow) :
    (List.insertionSort r l).filter p = l.filter p := by
  induction l with
  | nil => rfl
  | cons a t ih =>
    simp only [List.insertionSort]
    rw [filter_orderedInsert hp, ih, List.filter_cons]

theorem unidecodeStr_append (a b : Str) :
    unidecodeStr (a ++ b) = unidecodeStr a ++ unidecodeStr b := by
  induction a with
  | nil => rfl
  | cons c t ih => simp [unidecodeStr, ih]

theorem lowerStr_append (a b : Str) :
    lowerStr (a ++ b) = lowerStr a ++ lowerStr b :=
  List.map_append _ _ _

theorem isPySpace_elim {c : Char} (h : isPySpace c = true) :
    c = ' ' ∨ c = '\t' ∨ c = '\n' ∨ c = '\r' ∨
      c = Char.ofNat 11 ∨ c = Char.ofNat 12 := by
  simp only [isPySpace, Bool.or_eq_true, beq_iff_eq] at h
  tauto

theorem ws_unidecodeChar {c : Char} (h : isPySpace c = true) :
    unidecodeChar c = [c] := by
  rcases isPySpace_elim h with rfl | rfl | rfl | rfl | rfl | rfl <;> decide

theorem ws_pyLower {c : Char} (h : isPySpace c = true) : pyLower c = c := by
  rcases isPySpace_elim h with rfl | rfl | rfl | rfl | rfl | rfl <;> decide

theorem ws_unidecodeStr {w : Str} (h : ∀ c ∈ w, isPySpace c = true) :
    unidecodeStr w = w := by
  induction w with
  | nil => rfl
  | cons c t ih =>
    rw [unidecodeStr, ws_unidecodeChar (h c (List.mem_cons_self _ _)),
      ih fun x hx => h x (List.mem_cons_of_mem _ hx), List.singleton_append]

theorem ws_lowerStr {w : Str} (h : ∀ c ∈ w, isPySpace c = true) :
    lowerStr w = w := by
  induction w with
  | nil => rfl
  | cons c t ih =>
    rw [lowerStr, List.map_cons, ws_pyLower (h c (List.mem_cons_self _ _))]
    rw [lowerStr] at ih
    rw [ih fun x hx => h x (List.mem_cons_of_mem _ hx)]

theorem stripLeft_ws_append {w s : Str} (h : ∀ c ∈ w, isPySpace c = true) :
    stripLeft (w ++ s) = stripLeft s := by
  simp only [stripLeft]
  exact List.dropWhile_append_of_pos h

theorem stripRight_append_ws {s w : Str} (h : ∀ c ∈ w, isPySpace c = true) :
    stripRight (s ++ w) = stripRight s := by
  simp only [stripRight, List.reverse_append]
  rw [List.dropWhile_append_of_pos fun c hc => h c (List.mem_reverse.mp hc)]

theorem pyStrip_ws_append {w s : Str} (h : ∀ c ∈ w, isPySpace c = true) :
    pyStrip (w ++ s) = pyStrip s := by
  rw [pyStrip, stripLeft_ws_append h, pyStrip]

theorem pyStrip_append_ws {s w : Str} (h : ∀ c ∈ w, isPySpace c = true) :
    pyStrip (s ++ w) = pyStrip s := by
  rw [pyStrip, pyStrip, stripLeft, stripLeft, List.dropWhile_append]
  split
  · rename_i he
    rw [List.isEmpty_iff] at he
    rw [he, List.dropWhile_eq_nil_iff.mpr h]
  · exact stripRight_append_ws h

theorem lowerStr_unidecodeChar_congr {c c' : Char} (hc : c ∈ modeledChars)
    (hc' : c' ∈ modeledChars) (h : pyLower c = pyLower c') :
    lowerStr (unidecodeChar c) = lowerStr (unidecodeChar c') := by
  rw [lowerStr_unidecodeChar_pyLower c hc,
    lowerStr_unidecodeChar_pyLower c' hc', h]

theorem lowerStr_unidecodeStr_congr {s s' : Str} (hs : strOk s)
    (hs' : strOk s') (h : lowerStr s = lowerStr s') :
    lowerStr (unidecodeStr s) = lowerStr (unidecodeStr s') := by
  induction s generalizing s' with
  | nil =>
    cases s' with
    | nil => rfl
    | cons c t => simp [lowerStr] at h
  | cons c t ih =>
    cases s' with
    | nil => simp [lowerStr] at h
    | cons c' t' =>
      simp only [lowerStr, List.map_cons, List.cons.injEq] at h
      have h1 := lowerStr_unidecodeChar_congr
        (hs c (List.mem_cons_self _ _)) (hs' c' (List.mem_cons_self _ _)) h.1
      have h2 := ih (fun x hx => hs x (List.mem_cons_of_mem _ hx))
        (fun x hx => hs' x (List.mem_cons_of_mem _ hx)) h.2
      rw [unidecodeStr, unidecodeStr, lowerStr_append, lowerStr_append, h1, h2]

/-- Two strings that differ only by letter case and/or by leading and
trailing whitespace: both decompose as whitespace ++ core ++ whitespace
with the two cores equal character-by-character after lowercasing. -/
def caseWsEquiv (s s' : Str) : Prop :=
  ∃ p t q p' t' q',
    s = p ++ t ++ q ∧ s' = p' ++ t' ++ q' ∧
    (∀ c ∈ p, isPySpace c = true) ∧ (∀ c ∈ q, isPySpace c = true) ∧
    (∀ c ∈ p', isPySpace c = true) ∧ (∀ c ∈ q', isPySpace c = true) ∧
    lowerStr t = lowerStr t'

theorem normField_ws_core {p t q : Str} (hp : ∀ c ∈ p, isPySpace c = true)
    (hq : ∀ c ∈ q, isPySpace c = true) :
    normField (p ++ t ++ q) = pyStrip (lowerStr (unidecodeStr t)) := by
  rw [normField, unidecodeStr_append, unidecodeStr_append,
    ws_unidecodeStr hp, ws_unidecodeStr hq, lowerStr_append, lowerStr_append,
    ws_lowerStr hp, ws_lowerStr hq, pyStrip_append_ws hq, pyStrip_ws_append hp]

theorem normField_congr {s s' : Str} (hs : strOk s) (hs' : strOk s')
    (h : caseWsEquiv s s') : normField s = normField s' := by
  obtain ⟨p, t, q, p', t', q', rfl, rfl, hp, hq, hp', hq', hcore⟩ := h
  have et : strOk t := fun c hc => hs c (by simp [hc])
  have et' : strOk t' := fun c hc => hs' c (by simp [hc])
  rw [normField_ws_core hp hq, normField_ws_core hp' hq',
    lowerStr_unidecodeStr_congr et et' hcore]

theorem dedupByKey_eq_self {l : List KRow}
    (hp : l.Pairwise (fun a b => a.work_key ≠ b.work_key)) :
    dedupByKey l = l :=
  dedupBy_eq_self hp fun r _ => List.not_mem_nil r.work_key

/-- C3: for author strings and title strings over the modelled alphabet
that differ only by letter case or by leading/trailing whitespace, the
computed identity key is the identical string, and the key equals the
transliterate-then-lowercase-then-trim of the author, a literal `|`,
then the same of the title. -/
theorem C3_key_case_ws_invariant (a a' t t' : Str) (ha : strOk a)
    (ha' : strOk a') (ht : strOk t) (ht' : strOk t')
    (ea : caseWsEquiv a a') (et : caseWsEquiv t t') :
    key a t = key a' t' ∧
      key a t = pyStrip (lowerStr (unidecodeStr a)) ++
        '|' :: pyStrip (lowerStr (unidecodeStr t)) := by
  refine ⟨?_, rfl⟩
  rw [key, key, normField_congr ha ha' ea, normField_congr ht ht' et]

/-- Witness for C3 at concrete inputs: the author differs by case and by
the position of the surrounding whitespace, the title differs by case
only. -/
theorem C3_key_case_ws_invariant_witness :
    key (chars " Тарас") (chars "Кобзар") =
        key (chars "тАРАС ") (chars "КОБЗАР") ∧
      key (chars " Тарас") (chars "Кобзар") =
        pyStrip (lowerStr (unidecodeStr (chars " Тарас"))) ++
          '|' :: pyStrip (lowerStr (unidecodeStr (chars "Кобзар"))) :=
  C3_key_case_ws_invariant _ _ _ _ (by decide) (by decide) (by decide)
    (by decide)
    ⟨[' '], chars "Тарас", [], [], chars "тАРАС", [' '], by decide, by decide,
      by decide, by decide, by decide, by decide, by decide⟩
    ⟨[], chars "Кобзар", [], [], chars "КОБЗАР", [], by decide, by decide,
      by decide, by decide, by decide, by decide, by decide⟩

/-- C1 (amended): in the merge pipelines that deduplicate before sorting
(nbuv_oai.py 107–112, nbuv_scrape_html.py 204–209, nbuv_irbis_scrape.py
216–221), any merged row whose identity key already occurs in the
existing master is itself one of the existing master rows — existing
rows win over incoming rows with the same key.  In nbuv_sru.py the sort
runs before `drop_duplicates`, and the first row in *sorted* order wins
instead; see `C1_sru_counterexample`. -/
theorem C1_existing_wins (master new : List KRow) (r ex : KRow)
    (hex : ex ∈ master) (hk : ex.work_key = r.work_key) :
    (r ∈ mergeOai master new → r ∈ master) ∧
      (r ∈ mergeIrbis master new → r ∈ master) := by
  constructor
  · intro hr
    simp only [mergeOai] at hr
    exact dedupBy_first
      ((List.perm_insertionSort rowLe _).mem_iff.mp hr) hex hk
  · intro hr
    simp only [mergeIrbis] at hr
    exact dedupBy_first
      ((List.perm_insertionSort rowLeYP _).mem_iff.mp hr) hex hk

/-- Concrete rows for the C1 witness: the same work held by the existing
master (published 1900) and arriving again (published 1901). -/
def c1ex : KRow :=
  ⟨chars "A", chars "B", Option.none, some 1900, key (chars "B") (chars "A")⟩

/-- The incoming duplicate row for the C1 witness. -/
def c1inc : KRow :=
  ⟨chars "A", chars "B", Option.none, some 1901, key (chars "B") (chars "A")⟩

/-- Witness for C1 (amended) at concrete inputs. -/
theorem C1_existing_wins_witness :
    (c1ex ∈ mergeOai [c1ex] [c1inc] → c1ex ∈ [c1ex]) ∧
      (c1ex ∈ mergeIrbis [c1ex] [c1inc] → c1ex ∈ [c1ex]) :=
  C1_existing_wins [c1ex] [c1inc] c1ex c1ex (List.mem_cons_self _ _) rfl

/-- Existing master row for the C1 counterexample (published 1901). -/
def c1sruEx : KRow :=
  ⟨chars "a", chars "b", Option.none, some 1901, key (chars "b") (chars "a")⟩

/-- Incoming row for the C1 counterexample (same work, published 1900). -/
def c1sruInc : KRow :=
  ⟨chars "a", chars "b", Option.none, some 1900, key (chars "b") (chars "a")⟩

/-- C1 counterexample: in nbuv_sru.py (lines 175–180) the sort runs
before deduplication, so of two rows sharing an identity key the
earliest row in *sorted* order survives — here the incoming row, whose
fields differ from the existing master row.  "Existing master rows
always win" is therefore false for this merge pipeline. -/
theorem C1_sru_counterexample :
    mergeSru [c1sruEx] [c1sruInc] = [c1sruInc] ∧
      c1sruInc.work_key = c1sruEx.work_key ∧ c1sruInc ≠ c1sruEx :=
  ⟨by decide, rfl, by decide⟩

/-- C2 (amended): for the pipelines sorting on both year columns
(nbuv_oai.py 107–112, nbuv_scrape_html.py 204–209) the merged output is
sorted ascending by `(year_written, year_published)` with nulls last,
and the sort is stable: for every value of the year pair, the rows
carrying that pair appear in the same order as in the deduplicated
concatenation, which is itself a sublist of `existing ++ incoming` in
the original order.  nbuv_irbis_scrape.py sorts by `year_published`
only; see `C2_irbis_counterexample`. -/
theorem C2_merge_sorted_stable (A B : List KRow) :
    List.Sorted rowLe (mergeOai A B) ∧
      (∀ v w : Option Int,
        (mergeOai A B).filter
            (fun r => decide (r.year_written = v) &&
              decide (r.year_published = w)) =
          (dedupByKey (A ++ B)).filter
            (fun r => decide (r.year_written = v) &&
              decide (r.year_published = w))) ∧
      (dedupByKey (A ++ B)).Sublist (A ++ B) := by
  refine ⟨?_, ?_, dedupBy_sublist [] _⟩
  · simp only [mergeOai]
    exact List.sorted_insertionSort rowLe _
  · intro v w
    simp only [mergeOai]
    apply filter_insertionSort
    intro a b hpa hpb
    simp only [Bool.and_eq_true, decide_eq_true_eq] at hpa hpb
    simp only [rowLe, rowLeB, hpa.1, hpa.2, hpb.1, hpb.2]
    simp [leOpt_refl]

/-- First row for the C2 counterexample: written 1800, published 1900. -/
def c2r1 : KRow :=
  ⟨chars "x", chars "p", some 1800, some 1900, key (chars "p") (chars "x")⟩

/-- Second row for the C2 counterexample: written 1750, published 1901. -/
def c2r2 : KRow :=
  ⟨chars "y", chars "q", some 1750, some 1901, key (chars "q") (chars "y")⟩

/-- C2 counterexample: nbuv_irbis_scrape.py line 219 sorts by
`year_published` only, so the merged output need not be ordered by
`year_written`.  The two rows have distinct publication years, so every
sort implementation produces this output order, and `year_written`
comes out as 1800 before 1750 — not sorted as the claim states. -/
theorem C2_irbis_counterexample :
    mergeIrbis [] [c2r1, c2r2] = [c2r1, c2r2] ∧
      ¬ List.Sorted rowLe (mergeIrbis [] [c2r1, c2r2]) ∧
      (mergeIrbis [] [c2r1, c2r2]).map (fun r => r.year_written) =
        [some 1800, some 1750] :=
  ⟨by decide, by decide, by decide⟩

/-- C4: the merge of nbuv_oai.py / nbuv_scrape_html.py is idempotent:
re-merging the merged output with an empty incoming frame returns it
unchanged — the same rows with the same field values in the same
order. -/
theorem C4_merge_idempotent (A B : List KRow) :
    mergeOai (mergeOai A B) [] = mergeOai A B := by
  have hpair :
      (mergeOai A B).Pairwise (fun a b => a.work_key ≠ b.work_key) :=
    ((List.perm_insertionSort rowLe (dedupByKey (A ++ B))).pairwise_iff
      (fun h => Ne.symm h)).mpr (dedupBy_pairwise [] (A ++ B))
  have hsorted : List.Sorted rowLe (mergeOai A B) :=
    List.sorted_insertionSort rowLe (dedupByKey (A ++ B))
  show List.insertionSort rowLe (dedupByKey (mergeOai A B ++ [])) =
    mergeOai A B
  rw [List.append_nil, dedupByKey_eq_self hpair]
  exact hsorted.insertionSort_eq

/-- C8: persisting drops exactly the derived `work_key` column — the
persisted row type `Row` has exactly the four data columns — and loading
the persisted store recomputes `work_key` from the persisted author and
title while leaving the four data columns unchanged. -/
theorem C8_load_save_roundtrip (df : List KRow) :
    save df = df.map toRow ∧
      load_master (save df) = df.map fun r =>
        ⟨r.title, r.author, r.year_written, r.year_published,
          key r.author r.title⟩ := by
  refine ⟨rfl, ?_⟩
  rw [save, load_master, List.map_map]
  rfl

/-- C9: the identity key is not injective beyond case / whitespace /
transliteration collapsing: the separator `|` can also occur inside the
fields, so distinct (author, title) pairs share a key and deduplication
merges genuinely different records into a single row. -/
theorem C9_key_collision :
    ∃ a₁ t₁ a₂ t₂ : Str, (a₁, t₁) ≠ (a₂, t₂) ∧ key a₁ t₁ = key a₂ t₂ ∧
      (dedupByKey [⟨t₁, a₁, Option.none, some 1900, key a₁ t₁⟩,
        ⟨t₂, a₂, Option.none, some 1901, key a₂ t₂⟩]).length = 1 :=
  ⟨chars "a", chars "b|c", chars "a|b", chars "c",
    by decide, by decide, by decide⟩

/-- C10: `key` in nbuv_irbis_scrape.py is total over missing values at
its interface: `_s` maps `None` and float NaN to the empty string, so a
missing author yields the key `|` followed by the normalised title
instead of failing, identical to the key of an empty-string author. -/
theorem C10_key_total_on_missing (t : Cell) :
    NbuvIrbis.sClean Cell.none = [] ∧ NbuvIrbis.sClean Cell.nan = [] ∧
      NbuvIrbis.key Cell.none t =
        '|' :: normField (NbuvIrbis.sClean t) ∧
      NbuvIrbis.key Cell.none t = NbuvIrbis.key (Cell.str []) t :=
  ⟨rfl, rfl, rfl, rfl⟩

/-- C5 (amended): nbuv_oai.py rejects a record whose title is empty after
stripping the *trailing* characters `" /.:;"` (line 43 uses `rstrip`, so
the space is the only whitespace involved and only trailing characters
are removed), and every row it produces has a nonempty title.
nbuv_sru.py instead checks emptiness *before* stripping `" /:;"` from
both ends, so a title consisting only of those characters produces a row
whose stored title is the empty string; see `C5_sru_counterexample`. -/
theorem C5_oai_empty_title (r : OaiRec) :
    (rstripSet oaiStripChars (r.title?.getD []) = [] →
      NbuvOai.parse_marcxml r = Option.none) ∧
      (∀ row, NbuvOai.parse_marcxml r = some row → row.title ≠ []) := by
  constructor
  · intro h
    simp [NbuvOai.parse_marcxml, h]
  · intro row hrow
    unfold NbuvOai.parse_marcxml at hrow
    split at hrow
    · exact Option.noConfusion hrow
    · rename_i hcond
      push_neg at hcond
      split at hrow
      · exact Option.noConfusion hrow
      · split at hrow
        · split at hrow
          · exact Option.noConfusion hrow
          · rw [Option.some_inj] at hrow
            rw [← hrow]
            exact hcond.1
        · exact Option.noConfusion hrow

/-- OAI record whose title strips to nothing, for the C5 witness. -/
def c5rec : OaiRec :=
  ⟨some (chars "/ ."), some (chars "x"), some (chars "1900"), Option.none⟩

/-- OAI record that parses successfully, for the C5 witness. -/
def c5rec2 : OaiRec :=
  ⟨some (chars "abc"), some (chars "d"), some (chars "1900"), Option.none⟩

/-- The row produced from `c5rec2`. -/
def c5row : KRow :=
  ⟨chars "abc", chars "d", Option.none, some 1900,
    key (chars "d") (chars "abc")⟩

/-- Witness for C5 (amended) at concrete inputs. -/
theorem C5_oai_empty_title_witness :
    NbuvOai.parse_marcxml c5rec = Option.none ∧ c5row.title ≠ [] :=
  ⟨(C5_oai_empty_title c5rec).1 (by decide),
    (C5_oai_empty_title c5rec2).2 c5row (by decide)⟩

/-- SRU record whose title is `"/"`: nonempty before stripping, empty
after. -/
def c5srurec : SruRec := ⟨['/'], chars "x", [], chars "1900", []⟩

/-- C5 counterexample: nbuv_sru.py checks `if not title` before
stripping, so the record with title `"/"` — empty after trimming and
stripping the trailing punctuation — is *not* rejected, and the row
handed onward stores the empty string as its title. -/
theorem C5_sru_counterexample :
    NbuvSru.parse_marcxml c5srurec ≠ Option.none ∧
      NbuvSru.parse_marcxml c5srurec =
        some ⟨[], chars "x", Option.none, some 1900⟩ :=
  ⟨by decide, by decide⟩

/-- HTML record page with no recognisable year anywhere, for C6. -/
def c6rec : HtmlRec :=
  ⟨chars "abc", chars "d", Option.none, chars "no year here"⟩

/-- The row `collect_rows` builds from `c6rec`: publication year 0. -/
def c6row : KRow :=
  ⟨chars "abc", chars "d", Option.none, some 0,
    key (chars "d") (chars "abc")⟩

/-- An IRBIS list-page hit whose year span reads `0000`. -/
def c6hit : IrbisHit := ⟨chars "t", chars "a", some 0⟩

/-- C6: nbuv_irbis_scrape.py maps a year of 0 to null
(`year if year else None`, third conjunct), but nbuv_scrape_html.py does
not: `extract_record` returns `year or 0` and `collect_rows` stores that
value unchanged, so a record page without a recognisable year yields a
row with the literal `year_published = 0` handed to the merge step —
against the spec's rule that 0 be treated as unknown. -/
theorem C6_html_stores_year_zero :
    NbuvHtml.collectRow c6rec = some c6row ∧
      c6row.year_published = some 0 ∧
      NbuvIrbis.hitRow c6hit =
        some ⟨chars "t", chars "a", Option.none, Option.none,
          key (chars "a") (chars "t")⟩ :=
  ⟨by decide, by decide, by decide⟩

/-- C7 (amended): only nbuv_oai.py enforces the 1700–2024 window in its
own code (line 53): every row its parser produces has a null
`year_written` and a non-null `year_published` inside [1700, 2024].
nbuv_sru.py and nbuv_irbis_scrape.py accept arbitrary four-digit years
(their window filtering is delegated to the server-side query), and
nbuv_scrape_html.py accepts 1700–2029 plus the literal 0; see
`C7_sru_counterexample`. -/
theorem C7_oai_year_window (r : OaiRec) (row : KRow)
    (h : NbuvOai.parse_marcxml r = some row) :
    row.year_written = Option.none ∧
      ∃ y : Int, row.year_published = some y ∧ 1700 ≤ y ∧ y ≤ 2024 := by
  unfold NbuvOai.parse_marcxml at h
  split at h
  · exact Option.noConfusion h
  · split at h
    · exact Option.noConfusion h
    · rename_i year hyear
      split at h
      · rename_i hwin
        split at h
        · exact Option.noConfusion h
        · rw [Option.some_inj] at h
          rw [← h]
          refine ⟨rfl, (year : Int), rfl, ?_, ?_⟩
          · exact_mod_cast hwin.1
          · exact_mod_cast hwin.2
      · exact Option.noConfusion h

/-- OAI record for the C7 witness. -/
def c7rec : OaiRec :=
  ⟨some (chars "dym"), some (chars "iv"), some (chars "1901"), Option.none⟩

/-- The row produced from `c7rec`. -/
def c7row : KRow :=
  ⟨chars "dym", chars "iv", Option.none, some 1901,
    key (chars "iv") (chars "dym")⟩

/-- Witness for C7 (amended) at a concrete input. -/
theorem C7_oai_year_window_witness :
    c7row.year_written = Option.none ∧
      ∃ y : Int, c7row.year_published = some y ∧ 1700 ≤ y ∧ y ≤ 2024 :=
  C7_oai_year_window c7rec c7row (by decide)

/-- SRU record whose only date digits are `1234`. -/
def c7srurec : SruRec := ⟨chars "t", chars "a", [], chars "1234", []⟩

/-- C7 counterexample: nbuv_sru.py's parser has no year-window check of
its own — its regex is a bare `(\d{4})` — so a record dated `1234`
produces a row with `year_published = 1234`, outside [1700, 2024]. -/
theorem C7_sru_counterexample :
    NbuvSru.parse_marcxml c7srurec =
      some ⟨chars "t", chars "a", Option.none, some 1234⟩ ∧
      ¬(1700 ≤ (1234 : Int) ∧ (1234 : Int) ≤ 2024) :=
  ⟨by decide, by decide⟩

end IrbisUkr
